import Mathlib

/-!
# Verification of the `search` package of unitymind

Shallow embedding of the in-memory lexical search engine (`package search`
in the repository): tokenizer, inverted index, BM25-lite scorer, excerpt
extractor, insert/search/load operations.

Modelling conventions:
* Go strings are modelled through their rune sequences (`List Char`);
  the engine's corpus is ASCII in all scenarios considered here, so byte
  positions and rune positions coincide.
* Go `map` values are modelled as association lists with unique keys;
  map iteration order (which Go randomizes) is modelled by quantifying
  over permutations of the association list where it matters.
* Go `float64` arithmetic is modelled by exact real arithmetic (`ℝ`);
  `math.Log` is `Real.log`.
* File I/O and JSON (de)serialization (`os.ReadFile`, `encoding/json`)
  are external to the repository and are modelled as parameters of the
  load operation.
-/

namespace Unitymind

/-- `search.Doc`: a single indexed documentation page. -/
structure Doc where
  id : String
  title : String
  url : String
  content : String
  tags : List String
deriving DecidableEq, Repr, Inhabited

/-- `search.Result`: a ranked search hit (score is a Go `float64`,
modelled as `ℝ`). -/
structure Result where
  title : String
  url : String
  excerpt : String
  score : ℝ
deriving Inhabited

/-- The fixed stop-word set of `search.tokenize`. -/
def stopWords : List String :=
  ["the", "a", "an", "is", "in", "to", "of", "and", "or", "for",
   "on", "with", "this", "that", "it", "be", "as", "at", "by", "we",
   "how", "do", "i", "you", "can", "what", "from", "are", "use", "used"]

/-- `unicode.IsLetter(r) || unicode.IsDigit(r)` for the ASCII corpus. -/
def isTokenChar (c : Char) : Bool := c.isAlpha || c.isDigit

/-- Flush the current run of token characters: keep it when it has at
least 2 characters and is not a stop word (`search.tokenize`). -/
def flushTok (cur : List Char) (acc : List String) : List String :=
  if cur.length ≥ 2 ∧ ¬ stopWords.contains (String.mk cur) then
    acc ++ [String.mk cur]
  else acc

/-- The rune loop of `search.tokenize` over the lowercased text. -/
def tokenizeAux : List Char → List Char → List String → List String
  | [], cur, acc => flushTok cur acc
  | c :: rest, cur, acc =>
    if isTokenChar c then tokenizeAux rest (cur ++ [c]) acc
    else tokenizeAux rest [] (flushTok cur acc)

/-- `search.tokenize`: lowercase, split on non-alphanumeric runes, keep
runs of length ≥ 2 that are not stop words, in text order. -/
def tokenize (text : String) : List String :=
  tokenizeAux (text.data.map Char.toLower) [] []

/-- The inverted index: token → postings list of document slot indices
(a Go `map[string][]int`, modelled as an association list with unique
keys). -/
abbrev Index := List (String × List Nat)

/-- Map lookup `e.index[tok]` (with its `ok` flag as `Option`). -/
def indexFind : Index → String → Option (List Nat)
  | [], _ => none
  | (t, ps) :: rest, tok => if t = tok then some ps else indexFind rest tok

/-- `e.index[tok] = append(e.index[tok], idx)`: append `idx` to the
postings list of `tok`, creating the entry when absent. -/
def indexAdd : Index → String → Nat → Index
  | [], tok, idx => [(tok, [idx])]
  | (t, ps) :: rest, tok, idx =>
    if t = tok then (t, ps ++ [idx]) :: rest
    else (t, ps) :: indexAdd rest tok idx

/-- The keys of the index map (`for indexedTok := range e.index`). -/
def indexKeys (ix : Index) : List String := ix.map Prod.fst

/-- `search.Engine`: document store plus inverted index (the mutex is
concurrency control, not state). -/
structure Engine where
  docs : List Doc
  index : Index
deriving DecidableEq, Repr

/-- `search.NewEngine`. -/
def newEngine : Engine := { docs := [], index := [] }

/-- `Engine.DocCount`. -/
def docCount (e : Engine) : Nat := e.docs.length

/-- The combined text `doc.Title + " " + doc.Content + " " + strings.Join(doc.Tags, " ")`
indexed by `Engine.reindexDoc`. -/
def combinedText (doc : Doc) : String :=
  doc.title ++ " " ++ doc.content ++ " " ++ String.intercalate " " doc.tags

/-- The token loop of `Engine.reindexDoc`: append `idx` to each distinct
token's postings, using the per-call `seen` set. -/
def reindexAux (idx : Nat) : List String → List String → Index → Index
  | [], _, ix => ix
  | tok :: rest, seen, ix =>
    if seen.contains tok then reindexAux idx rest seen ix
    else reindexAux idx rest (tok :: seen) (indexAdd ix tok idx)

/-- `Engine.reindexDoc`. -/
def reindexDoc (ix : Index) (idx : Nat) (doc : Doc) : Index :=
  reindexAux idx (tokenize (combinedText doc)) [] ix

/-- The deduplication loop of `Engine.AddDoc`: index of the first
stored document with the given URL. -/
def findURLIdx : List Doc → String → Option Nat
  | [], _ => none
  | d :: rest, url =>
    if d.url = url then some 0 else (findURLIdx rest url).map (· + 1)

/-- `Engine.AddDoc`: deduplicate by URL — overwrite in place and
re-index that slot when a stored document has the same URL, otherwise
append a fresh slot and index it. -/
def addDoc (e : Engine) (doc : Doc) : Engine :=
  match findURLIdx e.docs doc.url with
  | some i => { docs := e.docs.set i doc, index := reindexDoc e.index i doc }
  | none =>
    { docs := e.docs ++ [doc], index := reindexDoc e.index e.docs.length doc }

/-- `search.AddResults`: index a list of results as documents. -/
def addResults (e : Engine) (results : List Result) : Engine :=
  results.foldl
    (fun e' r =>
      addDoc e' { id := r.url, title := r.title, url := r.url,
                  content := r.excerpt, tags := [] }) e

/-- The scan loop of `search.countOccurrences`: non-overlapping
occurrences, resuming after each match; `skip` counts characters still
to be skipped after a match (`idx += i + len(tok)` in Go). -/
def countOccAux (tok : List Char) : List Char → Nat → Nat
  | [], _ => 0
  | c :: rest, skip =>
    if skip > 0 then countOccAux tok rest (skip - 1)
    else if tok ≠ [] ∧ tok.isPrefixOf (c :: rest) then
      1 + countOccAux tok rest (tok.length - 1)
    else countOccAux tok rest 0

/-- `search.countOccurrences`: case-insensitive non-overlapping
substring occurrence count (the text is lowercased, the token already
is). -/
def countOccurrences (tok text : String) : Nat :=
  countOccAux tok.data (text.data.map Char.toLower) 0

/-- `strings.Contains`: `sub` occurs somewhere in `text`. -/
def containsSub (sub : List Char) : List Char → Bool
  | [] => sub.isEmpty
  | c :: rest => sub.isPrefixOf (c :: rest) || containsSub sub rest

/-- The hit count of the 200-character window at position `i` of the
lowercased body: the number of entries of `tokens` occurring in the
window as substrings (`extractExcerpt`'s inner loop; duplicates in
`tokens` are counted once per entry). -/
def windowHits (lower : List Char) (tokens : List String) (i : Nat) : Nat :=
  (tokens.filter (fun tok => containsSub tok.data ((lower.drop i).take 200))).length

/-- The window start positions scanned by `extractExcerpt`:
`i = 0, 50, 100, ...` while `i < len(lower) - 200` (none when the body
has at most 200 characters, matching Go's signed comparison). -/
def slidePositions (len : Nat) : List Nat :=
  (List.range ((len - 200 + 49) / 50)).map (· * 50)

/-- The best-window fold of `extractExcerpt`: track `(bestPos, bestHits)`
starting from `(0, 0)`, updating only on strictly more hits (so the
first position with the highest count wins). -/
def bestWindow (lower : List Char) (tokens : List String) : Nat × Nat :=
  (slidePositions lower.length).foldl
    (fun bp i =>
      if bp.2 < windowHits lower tokens i then (i, windowHits lower tokens i)
      else bp) (0, 0)

/-- `strings.TrimSpace`: drop leading and trailing whitespace. -/
def trimChars (l : List Char) : List Char :=
  ((l.dropWhile Char.isWhitespace).reverse.dropWhile Char.isWhitespace).reverse

/-- `search.extractExcerpt`: find the densest 200-character window,
back up 50 characters when the best position exceeds 50, slice
`maxLen` characters clamped to the body, trim whitespace, and attach
`"..."` on the sides that do not touch the body's ends. -/
def extractExcerpt (content : String) (tokens : List String) (maxLen : Nat) : String :=
  if content.data.length = 0 then ""
  else
    let lower := content.data.map Char.toLower
    let bestPos := (bestWindow lower tokens).1
    let start := if bestPos > 50 then bestPos - 50 else bestPos
    let endPos := min (start + maxLen) content.data.length
    let excerpt := trimChars ((content.data.drop start).take (endPos - start))
    let withPre := if start > 0 then "...".data ++ excerpt else excerpt
    String.mk (if endPos < content.data.length then withPre ++ "...".data else withPre)

/-- The text whose tokens give a document's length and in which term
frequencies are counted: `doc.Content + " " + doc.Title`. -/
def docText (doc : Doc) : String := doc.content ++ " " ++ doc.title

/-- `Engine.avgDocLen`: mean token count of `Content + " " + Title`
over all documents, `100` for an empty corpus. -/
noncomputable def avgDocLen (e : Engine) : ℝ :=
  if e.docs.length = 0 then 100
  else
    (↑(e.docs.foldl (fun t d => t + (tokenize (docText d)).length) 0) : ℝ) /
      (↑e.docs.length : ℝ)

/-- Per-query score accumulator (`scores map[int]float64`, modelled as
an association list with unique keys; Go's map iteration order is
quantified over where the order matters). -/
abbrev Scores := List (Nat × ℝ)

/-- `scores[idx] += v` (missing keys read as `0`). -/
noncomputable def scoresAdd : Scores → Nat → ℝ → Scores
  | [], idx, v => [(idx, v)]
  | (j, w) :: rest, idx, v =>
    if j = idx then (j, w + v) :: rest
    else (j, w) :: scoresAdd rest idx v

/-- Read `scores[idx]` (missing keys read as `0`). -/
noncomputable def scoresGet : Scores → Nat → ℝ
  | [], _ => 0
  | (j, w) :: rest, idx => if j = idx then w else scoresGet rest idx

/-- The BM25 `tfNorm` expression of `Engine.scoreToken`. -/
noncomputable def tfNorm (tf dl avgLen k1 b : ℝ) : ℝ :=
  tf * (k1 + 1) / (tf + k1 * (1 - b + b * dl / avgLen))

/-- `Engine.scoreToken` (its unused `queryTokens` parameter is
omitted): add `idf * tfNorm * boost` to every slot of `tok`'s postings
list. -/
noncomputable def scoreTokenGo (e : Engine) (tok : String) (scores : Scores)
    (N avgLen k1 b boost : ℝ) : Scores :=
  match indexFind e.index tok with
  | none => scores
  | some postings =>
    let df : ℝ := (postings.length : ℝ)
    let idf := Real.log ((N - df + 0.5) / (df + 0.5) + 1)
    postings.foldl
      (fun sc idx =>
        let doc := e.docs.getD idx default
        let dl : ℝ := ((tokenize (docText doc)).length : ℝ)
        let tf : ℝ := (countOccurrences tok (docText doc) : ℝ)
        scoresAdd sc idx (idf * tfNorm tf dl avgLen k1 b * boost)) scores

/-- One iteration of `Engine.Search`'s query-token loop: exact-match
scoring with weight `1.0`, then the prefix scan over all indexed terms
with weight `0.7` (for tokens of length ≥ 3). -/
noncomputable def perToken (e : Engine) (N avgLen : ℝ) (sc : Scores)
    (tok : String) : Scores :=
  let sc1 := scoreTokenGo e tok sc N avgLen 1.5 0.75 1.0
  (indexKeys e.index).foldl
    (fun s u =>
      if u ≠ tok ∧ tok.data.isPrefixOf u.data = true ∧ 3 ≤ tok.length then
        scoreTokenGo e u s N avgLen 1.5 0.75 0.7
      else s) sc1

/-- The title-boost loop of `Engine.Search`: `+2.0` for every
(document, query token) pair where the lowercased title contains the
token. -/
noncomputable def titleBoost (e : Engine) (tokens : List String)
    (sc : Scores) : Scores :=
  e.docs.enum.foldl
    (fun s p =>
      tokens.foldl
        (fun s2 tok =>
          if containsSub tok.data (p.2.title.data.map Char.toLower) then
            scoresAdd s2 p.1 2.0
          else s2) s) sc

/-- The full score accumulation of `Engine.Search` for a token list. -/
noncomputable def searchScores (e : Engine) (tokens : List String) : Scores :=
  let N : ℝ := (e.docs.length : ℝ)
  let avgLen := avgDocLen e
  titleBoost e tokens (tokens.foldl (perToken e N avgLen) [])

/-- One step of `Engine.Search`'s insertion sort: the new element
bubbles left past strictly smaller scores, so it is inserted before the
first element it strictly beats (stable for ties). -/
noncomputable def goInsert (x : Nat × ℝ) : List (Nat × ℝ) → List (Nat × ℝ)
  | [] => [x]
  | y :: ys => if y.2 < x.2 then x :: y :: ys else y :: goInsert x ys

/-- `Engine.Search`'s insertion sort (descending by score, stable in
the enumeration order of the candidates). -/
noncomputable def goSort (l : List (Nat × ℝ)) : List (Nat × ℝ) :=
  l.foldl (fun acc x => goInsert x acc) []

/-- The result-building loop of `Engine.Search`: take the top `topK`
ranked candidates and normalize by the maximum score when it is
positive. -/
noncomputable def buildResults (e : Engine) (tokens : List String) (topK : Nat)
    (ranked : List (Nat × ℝ)) : List Result :=
  let maxScore : ℝ := match ranked with | [] => 0 | x :: _ => x.2
  (ranked.take topK).map
    (fun sd =>
      let doc := e.docs.getD sd.1 default
      { title := doc.title, url := doc.url,
        excerpt := extractExcerpt doc.content tokens 300,
        score := if 0 < maxScore then sd.2 / maxScore else 0 })

/-- `Engine.Search` with the enumeration order of the candidate map
(`for idx, score := range scores`) made explicit: Go randomizes this
order, so the function is parameterized by it. -/
noncomputable def searchWithOrder (e : Engine) (query : String) (topK : Nat)
    (order : Scores) : List Result :=
  if e.docs.length = 0 then []
  else if tokenize query = [] then []
  else buildResults e (tokenize query) topK (goSort order)

/-- `Engine.Search` with the candidate map enumerated in its canonical
(first-touch) order. -/
noncomputable def search (e : Engine) (query : String) (topK : Nat) : List Result :=
  searchWithOrder e query topK (searchScores e (tokenize query))

/-- Outcome of `Engine.LoadCache`: the file read failed, the JSON
unmarshal failed, or the load succeeded. -/
inductive LoadResult | readError | parseError | ok
deriving DecidableEq, Repr

/-- `Engine.LoadCache`: read the file, unmarshal it, then replay
`AddDoc` over the decoded document list. `os.ReadFile` is modelled by
the `fileData` argument (`none` = read error) and `json.Unmarshal` by
the `parse` argument (`none` = malformed data); both run before any
mutation, exactly as in the source. -/
def loadCache (e : Engine) (fileData : Option String)
    (parse : String → Option (List Doc)) : Engine × LoadResult :=
  match fileData with
  | none => (e, .readError)
  | some data =>
    match parse data with
    | none => (e, .parseError)
    | some docs => (docs.foldl addDoc e, .ok)

/-! ## Invariant predicates -/

/-- At most one stored document per URL (the dedup invariant of §3). -/
def urlsNodup (e : Engine) : Prop :=
  e.docs.Pairwise (fun d1 d2 => d1.url ≠ d2.url)

/-- Every slot index stored in any postings list is in bounds for the
document store. -/
def indexInBounds (e : Engine) : Prop :=
  ∀ t ps, indexFind e.index t = some ps → ∀ i ∈ ps, i < e.docs.length

/-! ## Spec-side definitions (written from the specification's words,
for comparison with the source-side definitions above) -/

/-- Spec §4.3: `idf = ln((N - documentFrequency + 0.5) / (documentFrequency + 0.5) + 1)`. -/
noncomputable def specIdf (N df : ℝ) : ℝ :=
  Real.log ((N - df + 0.5) / (df + 0.5) + 1)

/-- Spec §4.3: `normalizedTF = termFrequency * (k1+1) / (termFrequency + k1*(1 - b + b*docLength/avgDocLength))`. -/
noncomputable def specNormalizedTF (tf dl avg k1 b : ℝ) : ℝ :=
  tf * (k1 + 1) / (tf + k1 * (1 - b + b * dl / avg))

/-- Spec §4.3, the full per-candidate contribution
`idf * normalizedTF * weight` of a term `t` with document frequency
`df` to slot `idx`, with `termFrequency` the case-insensitive substring
count of `t` in the slot's title and body text and `docLength` its
token count. -/
noncomputable def specContribution (e : Engine) (t : String) (df : ℝ)
    (idx : Nat) (weight : ℝ) : ℝ :=
  specIdf (e.docs.length : ℝ) df *
    specNormalizedTF (countOccurrences t (docText (e.docs.getD idx default)) : ℝ)
      ((tokenize (docText (e.docs.getD idx default))).length : ℝ)
      (avgDocLen e) 1.5 0.75 * weight

/-- The excerpt-window hit count as the claim words it: the number of
*distinct* query tokens occurring in the 200-character window at `i`. -/
def claimWindowHits (lower : List Char) (tokens : List String) (i : Nat) : Nat :=
  (tokens.dedup.filter (fun tok => containsSub tok.data ((lower.drop i).take 200))).length

/-- The claim's best window position: the first window position whose
(distinct-token) hit count is highest. -/
def claimBestPos (lower : List Char) (tokens : List String) : Nat :=
  let positions := slidePositions lower.length
  let m := (positions.map (claimWindowHits lower tokens)).foldl max 0
  ((positions.find? (fun i => claimWindowHits lower tokens i = m)).getD 0)

/-- The excerpt as claim C7 words it: best window position, backed up
50 characters clamped to 0 (truncated subtraction), `maxLen` characters
sliced from there clamped to the body length, `"..."` attached on the
sides that do not touch the body's ends (no whitespace trimming). -/
def claimExcerpt (content : String) (tokens : List String) (maxLen : Nat) : String :=
  if content.data.length = 0 then ""
  else
    let lower := content.data.map Char.toLower
    let bestPos := claimBestPos lower tokens
    let start := bestPos - 50
    let endPos := min (start + maxLen) content.data.length
    let slice := (content.data.drop start).take (endPos - start)
    let withPre := if start > 0 then "...".data ++ slice else slice
    String.mk (if endPos < content.data.length then withPre ++ "...".data else withPre)

/-- The amended best window position: the *first* position whose
per-entry hit count equals the maximum hit count (0 when there are no
window positions). -/
def amendedBestPos (lower : List Char) (tokens : List String) : Nat :=
  let positions := slidePositions lower.length
  let m := (positions.map (windowHits lower tokens)).foldl max 0
  ((positions.find? (fun i => windowHits lower tokens i = m)).getD 0)

/-- The excerpt as amended claim C7 describes it: first position with
the highest per-entry window hit count, backed up 50 characters only
when the position exceeds 50, `maxLen` characters sliced from there
clamped to the body length, the slice trimmed of surrounding
whitespace, and `"..."` attached on the sides that do not touch the
body's ends. -/
def amendedExcerpt (content : String) (tokens : List String) (maxLen : Nat) : String :=
  if content.data.length = 0 then ""
  else
    let lower := content.data.map Char.toLower
    let bestPos := amendedBestPos lower tokens
    let start := if bestPos > 50 then bestPos - 50 else bestPos
    let endPos := min (start + maxLen) content.data.length
    let excerpt := trimChars ((content.data.drop start).take (endPos - start))
    let withPre := if start > 0 then "...".data ++ excerpt else excerpt
    String.mk (if endPos < content.data.length then withPre ++ "...".data else withPre)

/-- The maximum raw accumulated score of a query's candidates (`0` when
there are none): the head of the descending-sorted candidate list. -/
noncomputable def maxRaw (e : Engine) (query : String) : ℝ :=
  match goSort (searchScores e (tokenize query)) with
  | [] => 0
  | x :: _ => x.2

/-! ## Concrete scenario inputs -/

/-- A document for the duplicate-postings scenario. -/
def dDup : Doc := { id := "x", title := "Physics", url := "u", content := "", tags := [] }

/-- A document whose only occurrence of "physics" is in its tags. -/
def docTags : Doc := { id := "t", title := "xx", url := "u", content := "yy", tags := ["physics"] }

/-- Engine holding only `docTags`. -/
def eTags : Engine := addDoc newEngine docTags

/-- A document whose title tokenizes to nothing (stop words only) but
still contains "yo" as a substring. -/
def docBoost : Doc := { id := "b", title := "you is", url := "u", content := "", tags := [] }

/-- Engine holding only `docBoost`. -/
def eBoost : Engine := addDoc newEngine docBoost

/-- First of two documents that tie on the title-boost score. -/
def docTieA : Doc := { id := "a", title := "a you", url := "ua", content := "", tags := [] }

/-- Second of two documents that tie on the title-boost score. -/
def docTieB : Doc := { id := "b", title := "b you", url := "ub", content := "", tags := [] }

/-- Engine holding the two tied documents. -/
def eTie : Engine := addDoc (addDoc newEngine docTieA) docTieB

/-- A document indexing the term "rigidbody" (and no term "rigid"). -/
def docRigid : Doc := { id := "d", title := "Physics", url := "u", content := "rigidbody stuff", tags := [] }

/-- Engine holding only `docRigid`. -/
def eRigid : Engine := addDoc newEngine docRigid

/-- A document indexing the term "rigidbody" whose term statistics
differ from those of the partial query token "rigid": "rigid" occurs
twice as a substring of the content (in "rigidbody" and in "unrigid")
while "rigidbody" occurs once, and no exact term "rigid" is indexed. -/
def docRigid2 : Doc :=
  { id := "d2", title := "Physics", url := "u2",
    content := "rigidbody unrigid stuff", tags := [] }

/-- Engine holding only `docRigid2`. -/
def eRigid2 : Engine := addDoc newEngine docRigid2

/-- A 251-character body whose only query-token hit sits at offset 230,
so that the best excerpt window starts at position 50. -/
def cBody : String :=
  String.mk (List.replicate 230 'a' ++ ['z', 'z'] ++ List.replicate 19 'a')

/-! ## Theorems -/

/-- C2: re-upserting the same unchanged document (same URL `"u"`)
leaves a single stored document but appends a duplicate postings entry
for slot 0 under the term `"physics"` — the per-call seen-set does not
deduplicate against entries from earlier calls, so the claimed
invariant (at most one entry per slot per term at all times) fails on
the code. -/
theorem c2_reupsert_duplicates_postings :
    indexFind (addDoc (addDoc newEngine dDup) dDup).index "physics" = some [0, 0] ∧
      docCount (addDoc (addDoc newEngine dDup) dDup) = 1 := by
  decide

/-- C8: when `LoadCache` fails (missing/unreadable file or malformed
data), the engine state is exactly what it was before the call; on
success the engine is the fold of `AddDoc` over the fully parsed
document list — the file is read and parsed before any mutation. -/
theorem c8_load_failure_leaves_state_untouched (e : Engine)
    (fileData : Option String) (parse : String → Option (List Doc)) :
    ((loadCache e fileData parse).2 ≠ LoadResult.ok →
      (loadCache e fileData parse).1 = e) ∧
    ((loadCache e fileData parse).2 = LoadResult.ok →
      ∃ data docs, fileData = some data ∧ parse data = some docs ∧
        (loadCache e fileData parse).1 = docs.foldl addDoc e) := by
  constructor
  · intro _
    cases fileData with
    | none => rfl
    | some data =>
      cases hp : parse data with
      | none => simp [loadCache, hp]
      | some ds =>
        exact absurd (by simp [loadCache, hp]) ‹(loadCache e (some data) parse).2 ≠ LoadResult.ok›
  · intro h
    cases fileData with
    | none => exact absurd h (by simp [loadCache])
    | some data =>
      cases hp : parse data with
      | none => exact absurd h (by simp [loadCache, hp])
      | some ds => exact ⟨data, ds, rfl, hp, by simp [loadCache, hp]⟩

/-- Witness for C8 at a concrete failed load. -/
theorem c8_load_failure_witness :
    (loadCache newEngine none (fun _ => none)).2 ≠ LoadResult.ok ∧
      (loadCache newEngine none (fun _ => none)).1 = newEngine :=
  ⟨by decide,
    (c8_load_failure_leaves_state_untouched newEngine none (fun _ => none)).1 (by decide)⟩

/-! ### Lemmas about URL lookup and `addDoc` -/

lemma findURLIdx_none_iff (l : List Doc) (u : String) :
    findURLIdx l u = none ↔ ∀ d ∈ l, d.url ≠ u := by
  induction l with
  | nil => simp [findURLIdx]
  | cons d rest ih =>
    by_cases hu : d.url = u
    · simp [findURLIdx, hu]
    · simp [findURLIdx, hu, Option.map_eq_none', ih]

lemma findURLIdx_some (l : List Doc) (u : String) (i : Nat)
    (h : findURLIdx l u = some i) :
    i < l.length ∧ (l.getD i default).url = u := by
  induction l generalizing i with
  | nil => simp [findURLIdx] at h
  | cons d rest ih =>
    by_cases hu : d.url = u
    · simp [findURLIdx, hu] at h
      subst h
      simpa using hu
    · simp [findURLIdx, hu, Option.map_eq_some'] at h
      obtain ⟨j, hj, rfl⟩ := h
      obtain ⟨h1, h2⟩ := ih j hj
      exact ⟨Nat.succ_lt_succ h1, by simpa using h2⟩

lemma findURLIdx_of_mem (l : List Doc) (u : String) (d : Doc)
    (hd : d ∈ l) (hu : d.url = u) : ∃ i, findURLIdx l u = some i := by
  induction l with
  | nil => simp at hd
  | cons d0 rest ih =>
    by_cases h0 : d0.url = u
    · exact ⟨0, by simp [findURLIdx, h0]⟩
    · rcases List.mem_cons.mp hd with rfl | hmem
      · exact absurd hu h0
      · obtain ⟨i, hi⟩ := ih hmem
        exact ⟨i + 1, by simp [findURLIdx, h0, hi]⟩

lemma docCount_addDoc_some (e : Engine) (d : Doc) (i : Nat)
    (h : findURLIdx e.docs d.url = some i) :
    docCount (addDoc e d) = docCount e := by
  simp [addDoc, h, docCount]

lemma docCount_addDoc_none (e : Engine) (d : Doc)
    (h : findURLIdx e.docs d.url = none) :
    docCount (addDoc e d) = docCount e + 1 := by
  simp [addDoc, h, docCount]

lemma exists_mem_url_addDoc (e : Engine) (d : Doc) :
    ∃ d' ∈ (addDoc e d).docs, d'.url = d.url := by
  unfold addDoc
  cases h : findURLIdx e.docs d.url with
  | some i =>
    obtain ⟨hlt, _⟩ := findURLIdx_some _ _ _ h
    exact ⟨d, by simpa using List.mem_set e.docs i hlt d, rfl⟩
  | none => exact ⟨d, by simp, rfl⟩

lemma pairwise_urls_set (l : List Doc) (i : Nat) (doc : Doc)
    (hp : l.Pairwise (fun a b => a.url ≠ b.url)) (hi : i < l.length)
    (hurl : (l.getD i default).url = doc.url) :
    (l.set i doc).Pairwise (fun a b => a.url ≠ b.url) := by
  induction l generalizing i with
  | nil => simp at hi
  | cons x rest ih =>
    cases hp with
    | cons hx hrest =>
      cases i with
      | zero =>
        simp only [List.getD_cons_zero] at hurl
        simp only [List.set]
        refine List.Pairwise.cons ?_ hrest
        intro b hb
        rw [← hurl]
        exact hx b hb
      | succ j =>
        have hj : j < rest.length := Nat.lt_of_succ_lt_succ (by simpa using hi)
        have hurl' : (rest.getD j default).url = doc.url := by
          simpa [List.getD_cons_succ] using hurl
        simp only [List.set]
        refine List.Pairwise.cons ?_ (ih j hrest hj hurl')
        intro b hb
        rcases List.mem_or_eq_of_mem_set hb with hb' | rfl
        · exact hx b hb'
        · rw [← hurl']
          refine hx _ ?_
          rw [List.getD_eq_getElem _ _ hj]
          exact List.getElem_mem hj

/-- C4: at most one stored document per URL: `AddDoc` preserves URL
distinctness (overwriting in place at the matching slot), and inserting
two documents with the same URL in sequence raises `DocCount` by at
most 1, never 2. -/
theorem c4_dedup_by_location :
    (∀ e d, urlsNodup e → urlsNodup (addDoc e d)) ∧
    (∀ e (d1 d2 : Doc), d1.url = d2.url →
      docCount (addDoc (addDoc e d1) d2) ≤ docCount e + 1) := by
  constructor
  · intro e d hp
    unfold urlsNodup at *
    unfold addDoc
    cases h : findURLIdx e.docs d.url with
    | some i =>
      obtain ⟨hlt, hurl⟩ := findURLIdx_some _ _ _ h
      exact pairwise_urls_set _ _ _ hp hlt hurl
    | none =>
      have hall := (findURLIdx_none_iff _ _).mp h
      rw [List.pairwise_append]
      refine ⟨hp, by simp, ?_⟩
      intro a ha b hb
      simp only [List.mem_singleton] at hb
      subst hb
      exact hall a ha
  · intro e d1 d2 hurl
    obtain ⟨d', hd', hd'url⟩ := exists_mem_url_addDoc e d1
    obtain ⟨j, hj⟩ := findURLIdx_of_mem _ _ _ hd' (by rw [hd'url, hurl])
    rw [docCount_addDoc_some _ _ _ hj]
    cases h1 : findURLIdx e.docs d1.url with
    | some i =>
      rw [docCount_addDoc_some _ _ _ h1]
      omega
    | none => rw [docCount_addDoc_none _ _ h1]

/-- Witness for C4 at a concrete engine and document pair. -/
theorem c4_dedup_by_location_witness :
    urlsNodup (addDoc newEngine dDup) ∧
      docCount (addDoc (addDoc newEngine dDup) dDup) ≤ docCount newEngine + 1 :=
  ⟨c4_dedup_by_location.1 newEngine dDup List.Pairwise.nil,
   c4_dedup_by_location.2 newEngine dDup dDup rfl⟩

/-! ### Lemmas about the inverted index -/

lemma indexFind_indexAdd (ix : Index) (tok : String) (idx : Nat) (t : String)
    (ps' : List Nat) (h : indexFind (indexAdd ix tok idx) t = some ps')
    (i : Nat) (hi : i ∈ ps') :
    i = idx ∨ ∃ ps0, indexFind ix t = some ps0 ∧ i ∈ ps0 := by
  induction ix generalizing ps' with
  | nil =>
    by_cases ht : tok = t
    · simp [indexAdd, indexFind, ht] at h
      subst h
      simp at hi
      exact Or.inl hi
    · simp [indexAdd, indexFind, ht] at h
  | cons kv rest ih =>
    obtain ⟨k, ps⟩ := kv
    by_cases hk : k = tok
    · subst hk
      by_cases ht : k = t
      · simp [indexAdd, indexFind, ht] at h
        subst h
        rcases List.mem_append.mp hi with hmem | hmem
        · exact Or.inr ⟨ps, by simp [indexFind, ht], hmem⟩
        · simp at hmem
          exact Or.inl hmem
      · simp [indexAdd, indexFind, ht] at h
        exact Or.inr ⟨ps', by simp [indexFind, ht, h], hi⟩
    · have hAdd : indexAdd ((k, ps) :: rest) tok idx = (k, ps) :: indexAdd rest tok idx := by
        simp [indexAdd, hk]
      rw [hAdd] at h
      by_cases ht : k = t
      · have hfind : indexFind ((k, ps) :: indexAdd rest tok idx) t = some ps := by
          simp [indexFind, ht]
        rw [hfind] at h
        obtain rfl : ps = ps' := by simpa using h
        exact Or.inr ⟨ps, by simp [indexFind, ht], hi⟩
      · have hfind : indexFind ((k, ps) :: indexAdd rest tok idx) t =
            indexFind (indexAdd rest tok idx) t := by
          simp [indexFind, ht]
        rw [hfind] at h
        rcases ih ps' h hi with h1 | ⟨ps0, h2, h3⟩
        · exact Or.inl h1
        · exact Or.inr ⟨ps0, by simp [indexFind, ht, h2], h3⟩

lemma reindexAux_bounds (n idx : Nat) (hidx : idx < n) (toks : List String) :
    ∀ (seen : List String) (ix : Index),
      (∀ t ps, indexFind ix t = some ps → ∀ i ∈ ps, i < n) →
      ∀ t ps, indexFind (reindexAux idx toks seen ix) t = some ps → ∀ i ∈ ps, i < n := by
  induction toks with
  | nil =>
    intro seen ix hix
    simpa [reindexAux] using hix
  | cons tok rest ih =>
    intro seen ix hix t ps h i hi
    simp only [reindexAux] at h
    by_cases hseen : seen.contains tok
    · rw [if_pos hseen] at h
      exact ih seen ix hix t ps h i hi
    · rw [if_neg hseen] at h
      have hix' : ∀ t ps, indexFind (indexAdd ix tok idx) t = some ps →
          ∀ i ∈ ps, i < n := by
        intro t' ps' h' i' hi'
        rcases indexFind_indexAdd ix tok idx t' ps' h' i' hi' with rfl | ⟨ps0, h0, hmem⟩
        · exact hidx
        · exact hix t' ps0 h0 i' hmem
      exact ih (tok :: seen) _ hix' t ps h i hi

/-- C10: every slot index stored in any postings list is strictly less
than the number of stored documents: the invariant holds for the fresh
engine and is preserved by `AddDoc` (postings are only ever appended
for the slot being (re)indexed, and documents are never removed), so
the `e.docs[idx]` lookups of `scoreToken` are always in bounds. -/
theorem c10_postings_in_bounds :
    indexInBounds newEngine ∧ ∀ e d, indexInBounds e → indexInBounds (addDoc e d) := by
  constructor
  · intro t ps h
    simp [newEngine, indexFind] at h
  · intro e d hinv
    unfold indexInBounds at *
    unfold addDoc
    cases h : findURLIdx e.docs d.url with
    | some i =>
      obtain ⟨hlt, _⟩ := findURLIdx_some _ _ _ h
      intro t ps hf j hj
      have hb := reindexAux_bounds e.docs.length i hlt
        (tokenize (combinedText d)) [] e.index hinv t ps
        (by simpa [reindexDoc] using hf) j hj
      simpa [List.length_set] using hb
    | none =>
      intro t ps hf j hj
      have hinv' : ∀ t ps, indexFind e.index t = some ps →
          ∀ i ∈ ps, i < e.docs.length + 1 :=
        fun t' ps' h' i' hi' => Nat.lt_succ_of_lt (hinv t' ps' h' i' hi')
      have hb := reindexAux_bounds (e.docs.length + 1) e.docs.length
        (Nat.lt_succ_self _) (tokenize (combinedText d)) [] e.index hinv' t ps
        (by simpa [reindexDoc] using hf) j hj
      simpa using hb

/-- Witness for C10: the preservation step applied to a concrete
insert, with the base invariant discharged by the fresh-engine case. -/
theorem c10_postings_in_bounds_witness : indexInBounds (addDoc newEngine docTags) :=
  c10_postings_in_bounds.2 newEngine docTags c10_postings_in_bounds.1

/-- C9: with document length, average document length and document
frequency (hence `idf`) held fixed, the exact-match per-term
contribution `idf * tfNorm * 1.0` of `scoreToken` is monotonically
nondecreasing in the term frequency, and the term-frequency factor
saturates strictly below `k1 + 1` (so growth is saturating, not
linear); in particular five occurrences contribute at least as much as
one. -/
theorem c9_bm25_monotone_in_tf (idf dl avg tf1 tf2 : ℝ)
    (hidf : 0 ≤ idf) (h1 : 0 ≤ tf1) (h12 : tf1 ≤ tf2)
    (hdl : 0 ≤ dl) (havg : 0 < avg) :
    idf * tfNorm tf1 dl avg 1.5 0.75 * 1.0 ≤ idf * tfNorm tf2 dl avg 1.5 0.75 * 1.0 ∧
      tfNorm tf2 dl avg 1.5 0.75 < 1.5 + 1 := by
  have hdiv : (0:ℝ) ≤ 0.75 * dl / avg := div_nonneg (by linarith) havg.le
  have hK0 : (0:ℝ) < 1.5 * (1 - 0.75 + 0.75 * dl / avg) := by linarith
  have h2 : 0 ≤ tf2 := le_trans h1 h12
  constructor
  · have hmono : tfNorm tf1 dl avg 1.5 0.75 ≤ tfNorm tf2 dl avg 1.5 0.75 := by
      unfold tfNorm
      rw [div_le_div_iff₀ (by linarith) (by linarith)]
      nlinarith [mul_le_mul_of_nonneg_right h12 hK0.le]
    have := mul_le_mul_of_nonneg_left hmono hidf
    nlinarith
  · unfold tfNorm
    rw [div_lt_iff₀ (by linarith)]
    nlinarith

/-- Witness for C9 at term frequencies 1 and 5 (document length 10,
average length 10, idf 1). -/
theorem c9_bm25_monotone_in_tf_witness :
    (1:ℝ) * tfNorm 1 10 10 1.5 0.75 * 1.0 ≤ 1 * tfNorm 5 10 10 1.5 0.75 * 1.0 ∧
      tfNorm 5 10 10 1.5 0.75 < 1.5 + 1 :=
  c9_bm25_monotone_in_tf 1 10 10 1 5 (by norm_num) (by norm_num) (by norm_num)
    (by norm_num) (by norm_num)

/-! ### Lemmas about the score accumulator -/

lemma scoresGet_scoresAdd (sc : Scores) (i j : Nat) (v : ℝ) :
    scoresGet (scoresAdd sc i v) j = scoresGet sc j + (if i = j then v else 0) := by
  induction sc with
  | nil =>
    by_cases h : i = j
    · simp [scoresAdd, scoresGet, h]
    · simp [scoresAdd, scoresGet, h]
  | cons kv rest ih =>
    obtain ⟨k, w⟩ := kv
    by_cases hk : k = i
    · subst hk
      by_cases hj : k = j
      · simp [scoresAdd, scoresGet, hj]
      · simp [scoresAdd, scoresGet, hj]
    · by_cases hj : k = j
      · have hij : ¬ i = j := fun h => hk (by rw [hj, h])
        have hji : ¬ j = i := fun h => hij h.symm
        simp [scoresAdd, scoresGet, hk, hj, hij, hji]
      · simp [scoresAdd, scoresGet, hk, hj, ih]

lemma scoresGet_foldAdd (c : Nat → ℝ) (ps : List Nat) (sc : Scores) (j : Nat) :
    scoresGet (ps.foldl (fun s i => scoresAdd s i (c i)) sc) j
      = scoresGet sc j + (ps.count j : ℝ) * c j := by
  induction ps generalizing sc with
  | nil => simp
  | cons p rest ih =>
    simp only [List.foldl_cons]
    rw [ih, scoresGet_scoresAdd]
    by_cases hp : p = j
    · subst hp
      rw [if_pos rfl, List.count_cons_self]
      push_cast
      ring
    · rw [if_neg hp, List.count_cons_of_ne (fun h => hp h.symm)]
      ring

/-- The per-slot delta of one `scoreToken` call at an arbitrary weight:
for a term `u` with a duplicate-free postings entry, the accumulated
score of each slot in `postings(u)` grows by exactly
`idf * normalizedTF * boost` computed from `u`'s statistics. -/
lemma scoreTokenGo_delta (e : Engine) (u : String) (sc : Scores)
    (ps : List Nat) (idx : Nat) (boost : ℝ)
    (hfind : indexFind e.index u = some ps) (hnd : ps.Nodup) (hmem : idx ∈ ps) :
    scoresGet (scoreTokenGo e u sc ((e.docs.length : ℝ)) (avgDocLen e) 1.5 0.75 boost) idx
      = scoresGet sc idx + specContribution e u ((ps.length : ℝ)) idx boost := by
  simp only [scoreTokenGo, hfind]
  rw [scoresGet_foldAdd]
  rw [List.count_eq_one_of_mem hnd hmem]
  simp [specContribution, specIdf, specNormalizedTF, tfNorm]

/-- C5: for a query token `t` with an exact postings entry, the raw
score `scoreToken` adds (with `k1 = 1.5`, `b = 0.75`, weight `1.0`) to
each candidate slot in `postings(t)` is exactly the specified
`idf * normalizedTF * 1.0` with `df = |postings(t)|`,
`N` = document count, `tf` = case-insensitive substring count in
content+title, `docLength` = its token count and `avgDocLength` from
`avgDocLen`; other slots' accumulated scores are untouched (the
postings list is assumed duplicate-free, cf. C2). -/
theorem c5_exact_match_bm25_contribution (e : Engine) (t : String) (sc : Scores)
    (ps : List Nat) (idx : Nat)
    (hfind : indexFind e.index t = some ps) (hnd : ps.Nodup) (hmem : idx ∈ ps) :
    scoresGet (scoreTokenGo e t sc ((e.docs.length : ℝ)) (avgDocLen e) 1.5 0.75 1.0) idx
      = scoresGet sc idx + specContribution e t ((ps.length : ℝ)) idx 1.0 :=
  scoreTokenGo_delta e t sc ps idx 1.0 hfind hnd hmem

/-- Witness for C5 on a concrete engine and token. -/
theorem c5_exact_match_bm25_contribution_witness :
    indexFind eRigid.index "rigidbody" = some [0] ∧
      scoresGet (scoreTokenGo eRigid "rigidbody" [] ((eRigid.docs.length : ℝ))
          (avgDocLen eRigid) 1.5 0.75 1.0) 0
        = scoresGet [] 0 + specContribution eRigid "rigidbody" ((([0] : List Nat).length : ℝ)) 0 1.0 :=
  ⟨by decide,
    c5_exact_match_bm25_contribution eRigid "rigidbody" [] [0] 0 (by decide) (by decide)
      (by decide)⟩

/-! ### Lemmas about the insertion sort -/

lemma goInsert_perm (x : Nat × ℝ) (l : List (Nat × ℝ)) :
    (goInsert x l).Perm (x :: l) := by
  induction l with
  | nil => simp [goInsert]
  | cons y ys ih =>
    unfold goInsert
    by_cases h : y.2 < x.2
    · rw [if_pos h]
    · rw [if_neg h]
      exact (ih.cons y).trans (List.Perm.swap x y ys)

lemma goSort_foldl_perm (l : List (Nat × ℝ)) :
    ∀ acc : List (Nat × ℝ),
      (l.foldl (fun acc x => goInsert x acc) acc).Perm (acc ++ l) := by
  induction l with
  | nil => intro acc; simp
  | cons p rest ih =>
    intro acc
    simp only [List.foldl_cons]
    refine (ih (goInsert p acc)).trans ?_
    have h1 : (goInsert p acc ++ rest).Perm ((p :: acc) ++ rest) :=
      (goInsert_perm p acc).append_right rest
    refine h1.trans ?_
    simpa using List.perm_middle.symm

lemma goSort_perm (l : List (Nat × ℝ)) : (goSort l).Perm l := by
  simpa using goSort_foldl_perm l []

lemma goInsert_sorted (x : Nat × ℝ) (l : List (Nat × ℝ))
    (h : l.Sorted (fun a b => b.2 ≤ a.2)) :
    (goInsert x l).Sorted (fun a b => b.2 ≤ a.2) := by
  induction l with
  | nil => simp [goInsert]
  | cons y ys ih =>
    rcases List.sorted_cons.mp h with ⟨hy, hys⟩
    unfold goInsert
    by_cases hlt : y.2 < x.2
    · rw [if_pos hlt]
      refine List.sorted_cons.mpr ⟨?_, h⟩
      intro b hb
      rcases List.mem_cons.mp hb with rfl | hb'
      · exact hlt.le
      · exact le_trans (hy b hb') hlt.le
    · rw [if_neg hlt]
      refine List.sorted_cons.mpr ⟨?_, ih hys⟩
      intro b hb
      have hb' := (goInsert_perm x ys).mem_iff.mp hb
      rcases List.mem_cons.mp hb' with rfl | hb''
      · exact le_of_not_lt hlt
      · exact hy b hb''

lemma goSort_sorted (l : List (Nat × ℝ)) :
    (goSort l).Sorted (fun a b => b.2 ≤ a.2) := by
  suffices h : ∀ acc : List (Nat × ℝ), acc.Sorted (fun a b => b.2 ≤ a.2) →
      (l.foldl (fun acc x => goInsert x acc) acc).Sorted (fun a b => b.2 ≤ a.2) by
    exact h [] (by simp)
  induction l with
  | nil => intro acc hacc; simpa using hacc
  | cons p rest ih =>
    intro acc hacc
    simp only [List.foldl_cons]
    exact ih (goInsert p acc) (goInsert_sorted p acc hacc)

lemma goSort_eq_of_perm (l1 l2 : List (Nat × ℝ)) (hperm : l1.Perm l2)
    (hdist : l1.Pairwise (fun a b => a.2 ≠ b.2)) :
    goSort l1 = goSort l2 := by
  have p1 := goSort_perm l1
  have p2 := goSort_perm l2
  have hd1 : (goSort l1).Pairwise (fun a b => a.2 ≠ b.2) :=
    (p1.pairwise_iff (fun h => Ne.symm h)).mpr hdist
  have hd2 : (goSort l2).Pairwise (fun a b => a.2 ≠ b.2) :=
    (p2.pairwise_iff (fun h => Ne.symm h)).mpr
      ((hperm.pairwise_iff (fun h => Ne.symm h)).mp hdist)
  have hs1 : (goSort l1).Pairwise (fun a b => b.2 < a.2) :=
    ((goSort_sorted l1).and hd1).imp (fun hab => lt_of_le_of_ne hab.1 (Ne.symm hab.2))
  have hs2 : (goSort l2).Pairwise (fun a b => b.2 < a.2) :=
    ((goSort_sorted l2).and hd2).imp (fun hab => lt_of_le_of_ne hab.1 (Ne.symm hab.2))
  haveI : IsAntisymm (Nat × ℝ) (fun a b => b.2 < a.2) :=
    ⟨fun a b h1 h2 => absurd (lt_trans h1 h2) (lt_irrefl _)⟩
  exact List.eq_of_perm_of_sorted (p1.trans (hperm.trans p2.symm)) hs1 hs2

/-! ### Evaluations of the concrete scenario engines -/

lemma eval_eBoost : eBoost = { docs := [docBoost], index := [] } := by decide

lemma eval_tok_yo : tokenize "yo" = ["yo"] := by decide

lemma eval_enum_eBoost :
    ([docBoost] : List Doc).enum = [(0, docBoost)] := by decide

lemma eval_searchScores_eBoost : searchScores eBoost (tokenize "yo") = [(0, 2.0)] := by
  rw [eval_tok_yo, eval_eBoost]
  simp [searchScores, perToken, scoreTokenGo, titleBoost, indexFind, indexKeys,
    scoresAdd, eval_enum_eBoost]
  decide

lemma eval_eTags :
    eTags = { docs := [docTags],
              index := [("xx", [0]), ("yy", [0]), ("physics", [0])] } := by decide

lemma eval_searchScores_eTags : searchScores eTags (tokenize "physics") = [(0, 0)] := by
  have htok : tokenize "physics" = ["physics"] := by decide
  have hcnt : countOccurrences "physics" (docText docTags) = 0 := by decide
  rw [htok, eval_eTags]
  simp [searchScores, perToken, scoreTokenGo, titleBoost, indexFind, indexKeys,
    scoresAdd, tfNorm, List.getD, hcnt]
  decide

lemma eval_eRigid :
    eRigid = { docs := [docRigid],
               index := [("physics", [0]), ("rigidbody", [0]), ("stuff", [0])] } := by decide

lemma eval_searchScores_eRigid :
    searchScores eRigid (tokenize "rigid") = [(0, Real.log (4/3) * 0.7)] := by
  have htok : tokenize "rigid" = ["rigid"] := by decide
  have hcnt : countOccurrences "rigidbody" (docText docRigid) = 1 := by decide
  have hlen : (tokenize (docText docRigid)).length = 3 := by decide
  have hc : containsSub ['r','i','g','i','d'] (List.map Char.toLower docRigid.title.data) = false := by
    decide
  have hl : (3:Nat) ≤ "rigid".length := by decide
  rw [htok, eval_eRigid]
  simp [searchScores, perToken, scoreTokenGo, titleBoost, indexFind, indexKeys,
    scoresAdd, tfNorm, avgDocLen, List.getD, hcnt, hlen]
  norm_num [hc, hl]

/-- C1 (amended): slots become ranked candidates when they receive any
scoring contribution (which can be zero, cf. the counterexample); in a
non-empty result list whose maximal raw candidate score is strictly
positive, the top result's normalized score equals 1.0 and every
returned normalized score is at most 1.0. -/
theorem c1_normalization_amended (e : Engine) (q : String) (k : Nat)
    (hne : search e q k ≠ []) (hpos : 0 < maxRaw e q) :
    (search e q k).head!.score = 1 ∧ ∀ r ∈ search e q k, r.score ≤ 1 := by
  unfold search searchWithOrder at hne ⊢
  by_cases h0 : e.docs.length = 0
  · simp [h0] at hne
  by_cases ht : tokenize q = []
  · simp [h0, ht] at hne
  simp only [if_neg h0, if_neg ht] at hne ⊢
  have hsort := goSort_sorted (searchScores e (tokenize q))
  cases hr : goSort (searchScores e (tokenize q)) with
  | nil =>
    rw [hr] at hne
    simp [buildResults] at hne
  | cons top rest =>
    have hmax : maxRaw e q = top.2 := by
      unfold maxRaw
      rw [hr]
    rw [hmax] at hpos
    rw [hr] at hsort
    have htop := (List.sorted_cons.mp hsort).1
    cases k with
    | zero => simp [buildResults] at hne
    | succ k' =>
      simp only [buildResults, List.take_succ_cons, List.map_cons]
      constructor
      · simp only [List.head!]
        rw [if_pos hpos]
        exact div_self (ne_of_gt hpos)
      · intro r hrmem
        rcases List.mem_cons.mp hrmem with rfl | hmem
        · simp only [if_pos hpos]
          rw [div_self (ne_of_gt hpos)]
        · obtain ⟨sd, hsd, rfl⟩ := List.mem_map.mp hmem
          have hsd' : sd ∈ rest := List.take_subset _ _ hsd
          simp only [if_pos hpos]
          exact (div_le_one hpos).mpr (htop sd hsd')

/-- C1 counterexample: with the single document `docTags` (the term
"physics" occurs only in its tags, so its term frequency in
content+title is 0), `Search("physics", 5)` returns a non-empty result
list whose only score is 0.0 — so the maximum normalized score is not
1.0 and the minimum is not strictly positive, and a slot with
accumulated raw score 0 became a ranked candidate. -/
theorem c1_normalization_counterexample :
    search eTags "physics" 5 =
        [{ title := "xx", url := "u", excerpt := "yy", score := 0 }] ∧
      (search eTags "physics" 5).head!.score ≠ 1 ∧
      ¬ 0 < (search eTags "physics" 5).head!.score := by
  have hs : search eTags "physics" 5 =
      [{ title := "xx", url := "u", excerpt := "yy", score := 0 }] := by
    unfold search searchWithOrder
    rw [eval_searchScores_eTags]
    have hex : extractExcerpt "yy" ["physics"] 300 = "yy" := by decide
    have htok : tokenize "physics" = ["physics"] := by decide
    rw [htok]
    simp [eval_eTags, goSort, goInsert, buildResults, List.getD, hex, docTags]
  refine ⟨hs, ?_, ?_⟩ <;> rw [hs] <;> norm_num

/-- Witness for C1 (amended) at a concrete engine with a positive
maximal raw score. -/
theorem c1_normalization_witness :
    (search eBoost "yo" 5 ≠ [] ∧ 0 < maxRaw eBoost "yo") ∧
      ((search eBoost "yo" 5).head!.score = 1 ∧
        ∀ r ∈ search eBoost "yo" 5, r.score ≤ 1) := by
  have h1 : search eBoost "yo" 5 ≠ [] := by
    unfold search searchWithOrder
    rw [eval_searchScores_eBoost, eval_tok_yo]
    simp [eval_eBoost, goSort, goInsert, buildResults]
  have h2 : 0 < maxRaw eBoost "yo" := by
    unfold maxRaw
    rw [eval_searchScores_eBoost]
    norm_num [goSort, goInsert]
  exact ⟨⟨h1, h2⟩, c1_normalization_amended eBoost "yo" 5 h1 h2⟩

lemma eval_eTie : eTie = { docs := [docTieA, docTieB], index := [] } := by decide

lemma eval_searchScores_eTie :
    searchScores eTie (tokenize "yo") = [(0, 2.0), (1, 2.0)] := by
  rw [eval_tok_yo, eval_eTie]
  simp [searchScores, perToken, scoreTokenGo, titleBoost, indexFind, indexKeys,
    scoresAdd, List.enum]
  decide

lemma eval_searchWithOrder_eTie_canonical :
    searchWithOrder eTie "yo" 5 [(0, 2.0), (1, 2.0)] =
      [{ title := "a you", url := "ua", excerpt := "", score := 1 },
       { title := "b you", url := "ub", excerpt := "", score := 1 }] := by
  have hex : extractExcerpt "" ["yo"] 300 = "" := by decide
  unfold searchWithOrder
  rw [eval_tok_yo, eval_eTie]
  simp [goSort, goInsert, buildResults, List.getD, hex]
  norm_num [docTieA, docTieB, hex]

lemma eval_searchWithOrder_eTie_swapped :
    searchWithOrder eTie "yo" 5 [(1, 2.0), (0, 2.0)] =
      [{ title := "b you", url := "ub", excerpt := "", score := 1 },
       { title := "a you", url := "ua", excerpt := "", score := 1 }] := by
  have hex : extractExcerpt "" ["yo"] 300 = "" := by decide
  unfold searchWithOrder
  rw [eval_tok_yo, eval_eTie]
  simp [goSort, goInsert, buildResults, List.getD, hex]
  norm_num [docTieA, docTieB, hex]

/-- C3 counterexample: with two documents tied at raw score 2.0, the
candidate enumeration order `[(1,2),(0,2)]` is a permutation of the
accumulated score map, yet `Search` run on it returns a different
result list than the slot-ordered enumeration — the insertion sort is
stable in the map enumeration order, which Go randomizes, so equal
scores need not appear in slot order and two invocations need not
coincide. -/
theorem c3_determinism_counterexample :
    [((1:Nat), (2.0:ℝ)), (0, 2.0)].Perm (searchScores eTie (tokenize "yo")) ∧
      searchWithOrder eTie "yo" 5 (searchScores eTie (tokenize "yo")) ≠
        searchWithOrder eTie "yo" 5 [(1, 2.0), (0, 2.0)] := by
  constructor
  · rw [eval_searchScores_eTie]
    exact List.Perm.swap _ _ _
  · rw [eval_searchScores_eTie, eval_searchWithOrder_eTie_canonical,
      eval_searchWithOrder_eTie_swapped]
    intro heq
    have := congrArg (fun l => (l.head!).url) heq
    simp at this

/-- C3 (amended): the insertion sort is stable with respect to the
candidate enumeration order, which Go's map iteration randomizes; when
all accumulated candidate scores are pairwise distinct, the returned
result list is the same for every enumeration order, so `Search` is
deterministic in that case (ties, however, may appear in either order —
see the counterexample). -/
theorem c3_determinism_amended (e : Engine) (q : String) (k : Nat) (ord1 ord2 : Scores)
    (h1 : ord1.Perm (searchScores e (tokenize q)))
    (h2 : ord2.Perm (searchScores e (tokenize q)))
    (hdist : (searchScores e (tokenize q)).Pairwise (fun a b => a.2 ≠ b.2)) :
    searchWithOrder e q k ord1 = searchWithOrder e q k ord2 := by
  unfold searchWithOrder
  have hsort : goSort ord1 = goSort ord2 :=
    goSort_eq_of_perm _ _ (h1.trans h2.symm)
      ((h1.pairwise_iff (fun h => Ne.symm h)).mpr hdist)
  rw [hsort]

/-- Witness for C3 (amended) at a concrete engine whose candidate
scores are pairwise distinct. -/
theorem c3_determinism_amended_witness :
    ([((0:Nat), (2.0:ℝ))].Perm (searchScores eBoost (tokenize "yo")) ∧
      (searchScores eBoost (tokenize "yo")).Pairwise (fun a b => a.2 ≠ b.2)) ∧
      searchWithOrder eBoost "yo" 5 [(0, 2.0)] =
        searchWithOrder eBoost "yo" 5 [(0, 2.0)] := by
  have hp : [((0:Nat), (2.0:ℝ))].Perm (searchScores eBoost (tokenize "yo")) := by
    rw [eval_searchScores_eBoost]
  have hd : (searchScores eBoost (tokenize "yo")).Pairwise (fun a b => a.2 ≠ b.2) := by
    rw [eval_searchScores_eBoost]
    simp
  exact ⟨⟨hp, hd⟩, c3_determinism_amended eBoost "yo" 5 _ _ hp hp hd⟩

/-- C6: prefix expansion. First, in general: for every engine, every
query token `t`, and every indexed term `u` distinct from `t` such
that `u` starts with `t` and `len(t) ≥ 3` (the exact condition guarded
by `Search`'s prefix scan, which then calls `scoreToken` on `u` with
weight `0.7`), the scorer adds to each slot of `u`'s (duplicate-free)
postings list `u`'s full BM25 contribution — computed from `u`'s own
document frequency and term frequency — with weight `0.7` instead of
`1.0`. Consequently, with only `docRigid` indexed there is no exact
postings entry for `"rigid"`, yet the accumulated candidate map of
`Search("rigid", ...)` is exactly the full BM25 contribution of the
indexed term `"rigidbody"` weighted `0.7`, and `Search("rigid", 5)`
still returns that document, with a positive (normalized) score; the
underlying raw prefix score `ln(4/3) * 0.7` is positive. -/
theorem c6_prefix_boost :
    (∀ (e : Engine) (t u : String) (sc : Scores) (ps : List Nat) (idx : Nat),
      u ≠ t → t.data.isPrefixOf u.data = true → 3 ≤ t.length →
      indexFind e.index u = some ps → ps.Nodup → idx ∈ ps →
      scoresGet (scoreTokenGo e u sc ((e.docs.length : ℝ)) (avgDocLen e) 1.5 0.75 0.7) idx
        = scoresGet sc idx + specContribution e u ((ps.length : ℝ)) idx 0.7) ∧
      indexFind eRigid.index "rigid" = none ∧
      searchScores eRigid (tokenize "rigid") =
        [(0, specContribution eRigid "rigidbody" 1 0 0.7)] ∧
      search eRigid "rigid" 5 =
        [{ title := "Physics", url := "u", excerpt := "rigidbody stuff", score := 1 }] ∧
      (0:ℝ) < Real.log (4/3) * 0.7 := by
  have hcnt : countOccurrences "rigidbody" (docText docRigid) = 1 := by decide
  have hlen : (tokenize (docText docRigid)).length = 3 := by decide
  have hpos : (0:ℝ) < Real.log (4/3) * 0.7 :=
    mul_pos (Real.log_pos (by norm_num)) (by norm_num)
  refine ⟨?_, by decide, ?_, ?_, hpos⟩
  · intro e t u sc ps idx _ _ _ hfind hnd hmem
    exact scoreTokenGo_delta e u sc ps idx 0.7 hfind hnd hmem
  · rw [eval_searchScores_eRigid]
    have : specContribution eRigid "rigidbody" 1 0 0.7 = Real.log (4/3) * 0.7 := by
      simp [specContribution, specIdf, specNormalizedTF, avgDocLen, eval_eRigid,
        List.getD, hcnt, hlen]
      norm_num
    rw [this]
  · have hex : extractExcerpt "rigidbody stuff" ["rigid"] 300 = "rigidbody stuff" := by
      decide
    have htok : tokenize "rigid" = ["rigid"] := by decide
    unfold search searchWithOrder
    rw [eval_searchScores_eRigid, htok]
    simp [eval_eRigid, goSort, goInsert, buildResults, List.getD, hex, docRigid,
      if_pos hpos, div_self (ne_of_gt hpos)]

/-- Witness for C6's general weight-0.7 conjunct, at an instance whose
statistics separate `u` from `t`: in `docRigid2`'s content+title the
partial token `"rigid"` occurs twice as a substring while the indexed
term `"rigidbody"` occurs once, so the added contribution demonstrably
uses `u = "rigidbody"`'s own term frequency (1), not `t`'s. -/
theorem c6_prefix_boost_witness :
    ("rigidbody" ≠ "rigid" ∧ "rigid".data.isPrefixOf "rigidbody".data = true ∧
      3 ≤ "rigid".length ∧ indexFind eRigid2.index "rigidbody" = some [0] ∧
      ([0] : List Nat).Nodup ∧ 0 ∈ ([0] : List Nat) ∧
      countOccurrences "rigid" (docText docRigid2) = 2 ∧
      countOccurrences "rigidbody" (docText docRigid2) = 1) ∧
      scoresGet (scoreTokenGo eRigid2 "rigidbody" [] ((eRigid2.docs.length : ℝ))
          (avgDocLen eRigid2) 1.5 0.75 0.7) 0
        = scoresGet [] 0 +
            specContribution eRigid2 "rigidbody" ((([0] : List Nat).length : ℝ)) 0 0.7 :=
  ⟨by decide,
    c6_prefix_boost.1 eRigid2 "rigid" "rigidbody" [] [0] 0 (by decide) (by decide)
      (by decide) (by decide) (by decide) (by decide)⟩

/-! ### Lemmas about the excerpt window fold -/

lemma foldlMax_init_le (l : List Nat) (a : Nat) : a ≤ l.foldl max a := by
  induction l generalizing a with
  | nil => simp
  | cons x rest ih => exact le_trans (le_max_left a x) (ih (max a x))

lemma foldlMax_le_of_mem (l : List Nat) (a x : Nat) (hx : x ∈ l) :
    x ≤ l.foldl max a := by
  induction l generalizing a with
  | nil => simp at hx
  | cons y rest ih =>
    rcases List.mem_cons.mp hx with rfl | hx'
    · exact le_trans (le_max_right a x) (foldlMax_init_le rest (max a x))
    · exact ih (max a y) hx'

lemma foldlMax_eq_of_all_le (l : List Nat) (a : Nat) (h : ∀ x ∈ l, x ≤ a) :
    l.foldl max a = a := by
  induction l with
  | nil => rfl
  | cons x rest ih =>
    simp only [List.foldl_cons]
    rw [max_eq_left (h x (by simp))]
    exact ih (fun y hy => h y (by simp [hy]))

lemma bestFold_const (f : Nat → Nat) (l : List Nat) :
    ∀ (p h : Nat), (∀ i ∈ l, f i ≤ h) →
      l.foldl (fun bp i => if bp.2 < f i then (i, f i) else bp) (p, h) = (p, h) := by
  induction l with
  | nil => intro p h _; rfl
  | cons x rest ih =>
    intro p h hall
    simp only [List.foldl_cons]
    rw [if_neg (not_lt.mpr (hall x (by simp)))]
    exact ih p h (fun i hi => hall i (by simp [hi]))

lemma bestFold_exists (f : Nat → Nat) (l : List Nat) :
    ∀ (p h : Nat), (∃ i ∈ l, h < f i) →
      ∃ j, l.find? (fun i => f i = (l.map f).foldl max h) = some j ∧
        l.foldl (fun bp i => if bp.2 < f i then (i, f i) else bp) (p, h)
          = (j, (l.map f).foldl max h) := by
  induction l with
  | nil =>
    intro p h hex
    simp at hex
  | cons x rest ih =>
    intro p h hex
    simp only [List.map_cons, List.foldl_cons]
    by_cases hxh : h < f x
    · rw [if_pos hxh]
      by_cases hall : ∀ i ∈ rest, f i ≤ f x
      · have hM : (rest.map f).foldl max (max h (f x)) = f x := by
          rw [max_eq_right hxh.le]
          exact foldlMax_eq_of_all_le _ _ (by
            intro y hy
            obtain ⟨i, hi, rfl⟩ := List.mem_map.mp hy
            exact hall i hi)
        refine ⟨x, ?_, ?_⟩
        · rw [List.find?_cons_of_pos _ (by simp [hM])]
        · rw [hM]
          exact bestFold_const f rest x (f x) hall
      · push_neg at hall
        obtain ⟨j, hfind, hfold⟩ := ih x (f x) hall
        have hMM : (rest.map f).foldl max (max h (f x)) = (rest.map f).foldl max (f x) := by
          rw [max_eq_right hxh.le]
        have hfxlt : f x < (rest.map f).foldl max (f x) := by
          obtain ⟨i, hi, hlt⟩ := hall
          exact lt_of_lt_of_le hlt (foldlMax_le_of_mem _ _ _ (List.mem_map_of_mem f hi))
        refine ⟨j, ?_, ?_⟩
        · rw [List.find?_cons_of_neg _ (by simp [hMM, Nat.ne_of_lt hfxlt])]
          simpa [hMM] using hfind
        · rw [hMM]
          exact hfold
    · rw [if_neg hxh]
      have hx_le : f x ≤ h := le_of_not_lt hxh
      have hex' : ∃ i ∈ rest, h < f i := by
        obtain ⟨i, hi, hlt⟩ := hex
        rcases List.mem_cons.mp hi with rfl | hi'
        · exact absurd hlt hxh
        · exact ⟨i, hi', hlt⟩
      obtain ⟨j, hfind, hfold⟩ := ih p h hex'
      have hMM : (rest.map f).foldl max (max h (f x)) = (rest.map f).foldl max h := by
        rw [max_eq_left hx_le]
      have hfxlt : f x < (rest.map f).foldl max h := by
        obtain ⟨i, hi, hlt⟩ := hex'
        exact lt_of_le_of_lt hx_le
          (lt_of_lt_of_le hlt (foldlMax_le_of_mem _ _ _ (List.mem_map_of_mem f hi)))
      refine ⟨j, ?_, ?_⟩
      · rw [List.find?_cons_of_neg _ (by simp [hMM, Nat.ne_of_lt hfxlt])]
        simpa [hMM] using hfind
      · rw [hMM]
        exact hfold

lemma slidePositions_head (len a : Nat) (tail : List Nat)
    (h : slidePositions len = a :: tail) : a = 0 := by
  unfold slidePositions at h
  cases hn : (len - 200 + 49) / 50 with
  | zero => rw [hn] at h; simp at h
  | succ m =>
    rw [hn, List.range_succ_eq_map] at h
    simp at h
    exact h.1.symm

lemma bestWindow_eq_amended (lower : List Char) (tokens : List String) :
    (bestWindow lower tokens).1 = amendedBestPos lower tokens := by
  unfold bestWindow amendedBestPos
  simp only []
  by_cases hex : ∃ i ∈ slidePositions lower.length, 0 < windowHits lower tokens i
  · obtain ⟨j, hfind, hfold⟩ :=
      bestFold_exists (windowHits lower tokens) (slidePositions lower.length) 0 0 hex
    rw [hfold, hfind]
    rfl
  · push_neg at hex
    rw [bestFold_const _ _ 0 0 hex]
    have hm : ((slidePositions lower.length).map (windowHits lower tokens)).foldl max 0
        = 0 :=
      foldlMax_eq_of_all_le _ _ (by
        intro y hy
        obtain ⟨i, hi, rfl⟩ := List.mem_map.mp hy
        exact hex i hi)
    simp only [hm]
    cases hsp : slidePositions lower.length with
    | nil => simp
    | cons a tail =>
      have ha := slidePositions_head _ _ _ hsp
      have hfa : windowHits lower tokens a = 0 :=
        Nat.le_zero.mp (hex a (by rw [hsp]; simp))
      rw [List.find?_cons_of_pos _ (by simp [hfa])]
      simp [ha]

/-- C7 (amended): the excerpt is computed exactly as `amendedExcerpt`
describes: the first window position (stepping by 50 over the
lowercased body while `i < len - 200`) whose per-entry query-token hit
count is highest, backed up 50 characters only when that position
exceeds 50, `maxLen` characters sliced from there clamped to the body,
the slice trimmed of surrounding whitespace, and `"..."` attached on
each side that does not touch the body's ends. -/
theorem c7_excerpt_amended_equivalence (content : String) (tokens : List String)
    (maxLen : Nat) :
    extractExcerpt content tokens maxLen = amendedExcerpt content tokens maxLen := by
  simp only [extractExcerpt, amendedExcerpt, bestWindow_eq_amended]

set_option maxRecDepth 100000 in
/-- C7 counterexample: on a 251-character body whose only token hit
lies at offset 230, the best window position is 50; the code keeps
`start = 50` (it only backs up when the position strictly exceeds 50)
while the claim's "backed up 50 characters clamped to 0" gives
`start = 0`, and the produced excerpts differ. -/
theorem c7_excerpt_counterexample :
    extractExcerpt cBody ["zz"] 300 ≠ claimExcerpt cBody ["zz"] 300 := by decide

end Unitymind
